import Mathlib

/-!
Shallow embedding of the WISP messaging protocol
(`wisp_common.py`, `wisp_server.py`, `wisp_client.py`, `server.py`).

Frames are byte lists (`List Nat`, each entry an octet).  Python's
`str.encode()` on the ASCII data of this protocol is the identity on
code points, so a character of a Python `str` is modelled as its byte.
-/

abbrev Byte := Nat

/-- ASCII bytes of a string literal (Python `str.encode()`). -/
def bytesOf (s : String) : List Byte := s.toList.map Char.toNat

/-- Python `str.ljust(w)`: pad on the right with spaces (byte 32) up to
width `w`; a string already at least `w` long is returned unchanged. -/
def ljust (l : List Byte) (w : Nat) : List Byte :=
  l ++ List.replicate (w - l.length) 32

/-- One 16-byte request/response field: the argument text followed by a
null terminator, right-padded (`wisp_common.build_req`, line 105:
`f'\x7barg1\x7d\0'.ljust(16)`). -/
def packField (arg : List Byte) : List Byte := ljust (arg ++ [0]) 16

/-- Request PDU (`wisp_common.WispRequest`). -/
structure WispRequest where
  cmd : List Byte
  arg1 : List Byte
  arg2 : List Byte
deriving DecidableEq, Repr

/-- Response PDU (`wisp_common.WispResponse`); `count` is `len(data)`. -/
structure WispResponse where
  code : List Byte
  data : List (List Byte)
deriving DecidableEq, Repr

/-- Message PDU (`wisp_common.WispMessage`). -/
structure WispMessage where
  time : Nat
  text : List Byte
deriving DecidableEq, Repr

/-- The eight request command codes exposed by `WispRequest`
(`VERSION, AUTH, ADD, DEL, LIST, SEARCH, CONV, QUIT`). -/
def REQUEST_CODES : List (List Byte) :=
  [bytesOf "VERS", bytesOf "USPS", bytesOf "ADDU", bytesOf "DELU",
   bytesOf "LIST", bytesOf "SRCH", bytesOf "CONV", bytesOf "QUIT"]

/-- Membership test `WispRequest.valid` (`wisp_common.py`, lines 49-61). -/
def WispRequest.valid (cmd : List Byte) : Bool := cmd ∈ REQUEST_CODES

def OK_CODE : List Byte := bytesOf "OK"

def ER_CODE : List Byte := bytesOf "ER"

/-- Little-endian 4-byte encoding, Python `struct.pack` with format `<I`. -/
def pack_u32 (n : Nat) : List Byte :=
  [n % 256, n / 256 % 256, n / 65536 % 256, n / 16777216 % 256]

/-- Little-endian 4-byte decoding, Python `struct.unpack` with format `<I`. -/
def unpack_u32 (l : List Byte) : Nat :=
  l.getD 0 0 + 256 * l.getD 1 0 + 65536 * l.getD 2 0 + 16777216 * l.getD 3 0

/-- `wisp_common.build_req`: command code then two 16-byte fields. -/
def build_req (cmd arg1 arg2 : List Byte) : List Byte :=
  cmd ++ packField arg1 ++ packField arg2

/-- `wisp_common.build_res`: 2-byte status code, `<I` count, then one
16-byte field per argument. -/
def build_res (code : List Byte) (count : Nat) (args : List (List Byte)) : List Byte :=
  code ++ pack_u32 count ++ (args.map packField).flatten

/-- `wisp_common.build_msg`: `<I` timestamp then one 128-byte text field. -/
def build_msg (timestamp : Nat) (buf : List Byte) : List Byte :=
  pack_u32 timestamp ++ ljust (buf ++ [0]) 128

/-- `wisp_common.parse_pkt_field`: scan for the first null, return the
prefix before it; a field with no null is returned whole. -/
def parse_pkt_field : List Byte → List Byte
  | [] => []
  | b :: rest => if b = 0 then [] else b :: parse_pkt_field rest

/-- Constructor logic of `WispMessage.__init__`:
`self.time = timestamp or int(time.time())` — a zero (falsy) timestamp
is replaced by the current clock `now`. -/
def mkWispMessage (text : List Byte) (timestamp now : Nat) : WispMessage :=
  ⟨if timestamp = 0 then now else timestamp, text⟩

/-- `wisp_common.parse_message` on the bytes `socket.recv(132)` returned:
fewer than 132 bytes raises (caller treats `none` as fatal), otherwise
unpack the timestamp and null-scan the 128-byte text field.  `now` is the
decode-time clock used by `WispMessage.__init__` for falsy timestamps. -/
def parse_message (now : Nat) (msg : List Byte) : Option WispMessage :=
  if msg.length < 132 then none
  else some (mkWispMessage (parse_pkt_field (msg.drop 4)) (unpack_u32 (msg.take 4)) now)

/-- `WispServer._parse_request` applied to a received 36-byte packet:
`packet[:4]` is the command code, checked by `WispRequest.valid`
(invalid codes make the session quit, modelled `none`); the arguments
are the null-scanned slices `packet[4:20]` and `packet[20:]`. -/
def parse_request (packet : List Byte) : Option WispRequest :=
  let cmd := packet.take 4
  if WispRequest.valid cmd then
    some ⟨cmd, parse_pkt_field ((packet.drop 4).take 16), parse_pkt_field (packet.drop 20)⟩
  else none

/-- `WispClient._parse_response`: `header` is what `recv(6)` returned and
`fields` the successive results of the `recv(16)` calls of the loop.  A
header shorter than 6 bytes raises (`none`, the caller exits the
process); the status is `OK` exactly when the first two bytes are `OK`;
then `count` fields are read, each null-scanned with NO length check. -/
def parse_response (header : List Byte) (fields : List (List Byte)) : Option WispResponse :=
  if header.length < 6 then none
  else
    let code := if header.take 2 = OK_CODE then OK_CODE else ER_CODE
    let count := unpack_u32 ((header.drop 2).take 4)
    some ⟨code, (fields.take count).map parse_pkt_field⟩

/-- `WispServer._recv`: `got` is the byte list `self._conn.recv(size)`
returned; any length other than `size` makes the session quit (`none`). -/
def wisp_recv (size : Nat) (got : List Byte) : Option (List Byte) :=
  if got.length ≠ size then none else some got

/-- Splits a byte stream into the results of `n` successive `recv(16)`
calls when the whole stream is available. -/
def chunksN : Nat → List Byte → List (List Byte)
  | 0, _ => []
  | n + 1, l => l.take 16 :: chunksN n (l.drop 16)

/-! ## Session state machine (`wisp_server.py`) -/

/-- DFA state enum (`wisp_common.State`). -/
inductive State
  | Listening
  | Authentication
  | Command
  | Conversation
deriving DecidableEq, Repr

/-- `wisp_common.STATE_MAP`: the Python dict has no entry for
`Conversation`, modelled as `none` (a lookup there would raise). -/
def STATE_MAP : State → Option (List (List Byte))
  | .Listening => some [bytesOf "VERS"]
  | .Authentication => some [bytesOf "USPS"]
  | .Command => some [bytesOf "ADDU", bytesOf "DELU", bytesOf "LIST",
                      bytesOf "SRCH", bytesOf "CONV", bytesOf "QUIT"]
  | .Conversation => none

/-- Keys of the `WispServer._handlers` dict (`wisp_server.py`, lines
37-45): every command code except `VERSION`. -/
def HANDLER_KEYS : List (List Byte) :=
  [bytesOf "USPS", bytesOf "LIST", bytesOf "SRCH", bytesOf "ADDU",
   bytesOf "DELU", bytesOf "QUIT", bytesOf "CONV"]

/-- Outcome of one iteration of `WispServer.run`'s request branch for a
received command code.  `dispatched` means the matching `_handlers`
entry is invoked (and an OK/ERROR response sent); `ignored` means the
`if req.cmd in wcom.STATE_MAP[self._state]` guard failed and the loop
silently continues with no handler call, no response and no state
change; `terminated` means the thread exits. -/
inductive StepOutcome
  | dispatched (cmd : List Byte)
  | ignored
  | terminated
deriving DecidableEq, Repr

/-- One iteration of `WispServer.run`'s non-`Conversation` branch
(`wisp_server.py`, lines 79-93) for a received command code:
`_parse_request` quits the session on an unrecognized code; a missing
`STATE_MAP` or `_handlers` key raises a `KeyError` that the
`except` clause turns into connection teardown. -/
def sessionStep (st : State) (cmd : List Byte) : StepOutcome :=
  if ¬ WispRequest.valid cmd then .terminated
  else
    match STATE_MAP st with
    | none => .terminated
    | some legal =>
      if cmd ∈ legal then
        if cmd ∈ HANDLER_KEYS then .dispatched cmd else .terminated
      else .ignored

/-- The session fields `_handle_auth` touches (`wisp_server.py`). -/
structure AuthState where
  state : State
  user : Option String
  auth_counter : Nat
deriving DecidableEq, Repr

/-- Result of `WispServer._handle_auth`: either the session lives on
with the handler's `(outcome, data)` return (which `run` wraps into an
OK/ERROR response), or `sys.exit(1)` killed the thread. -/
inductive AuthOutcome
  | next (s : AuthState) (outcome : Bool) (data : List String)
  | terminated
deriving DecidableEq, Repr

/-- `WispServer._handle_auth` (`wisp_server.py`, lines 125-136), given
the `(outcome, data)` pair the store callback returned: success records
the user and moves to `Command`; failure increments `_auth_counter` and
exits the thread once it exceeds 5. -/
def handle_auth (s : AuthState) (outcome : Bool) (data : List String)
    (username : String) : AuthOutcome :=
  if outcome then .next { s with state := .Command, user := some username } true data
  else if s.auth_counter + 1 > 5 then .terminated
  else .next { s with auth_counter := s.auth_counter + 1 } false data

/-- Runs `n` consecutive failed AUTH attempts (store callback returning
`(False, ['Invalid Cred'])` as `Server._handle_auth` does on bad
credentials); `none` once the session thread has exited. -/
def failedAuths : Nat → AuthState → Option AuthState
  | 0, s => some s
  | n + 1, s =>
    match handle_auth s false ["Invalid Cred"] "u" with
    | .next s2 _ _ => failedAuths n s2
    | .terminated => none

/-! ## Store and command handlers (`server.py`) -/

/-- One `DATASTORE` entry. -/
structure UserRecord where
  password : String
  friends : List String
deriving DecidableEq, Repr

/-- The `DATASTORE` dict: identity to record, `none` for absent keys. -/
def Store := String → Option UserRecord

/-- In-place mutation of `DATASTORE[name]['friends']`; a missing key
leaves the store unchanged (the Python would raise instead, so callers
model that path separately). -/
def updateFriends (store : Store) (name : String) (f : List String → List String) : Store :=
  fun x => if x = name then (store x).map (fun r => ⟨r.password, f r.friends⟩) else store x

/-- `DATASTORE[name]['friends']`, defaulting to `[]` for absent users. -/
def friendsOf (store : Store) (name : String) : List String :=
  ((store name).map UserRecord.friends).getD []

/-- `Server._handle_add` (`server.py`, lines 140-147): no friendship
check — on success `user` is appended to the owner's list and then
`owner` to the user's list.  Returns `(outcome, data, store)`. -/
def handle_add (store : Store) (owner user : String) : Bool × List String × Store :=
  if (store owner).isNone ∨ (store user).isNone then (false, ["Invalid User"], store)
  else
    let s1 := updateFriends store owner (fun fr => fr ++ [user])
    (true, [], updateFriends s1 user (fun fr => fr ++ [owner]))

/-- Result of `Server._handle_del`: `crash` models the uncaught
`KeyError`/`ValueError` of `DATASTORE[user]['friends'].remove(owner)`,
carrying the store as already mutated by the first `remove`. -/
inductive DelResult
  | ok (store : Store)
  | err (data : List String) (store : Store)
  | crash (store : Store)

/-- Store left behind by a `DelResult`, whichever way it ended. -/
def DelResult.store : DelResult → Store
  | .ok s => s
  | .err _ s => s
  | .crash s => s

/-- `Server._handle_del` (`server.py`, lines 149-156): guard checks only
the owner's side; `list.remove` removes the first occurrence and raises
when absent. -/
def handle_del (store : Store) (owner user : String) : DelResult :=
  if (store owner).isNone ∨ user ∉ friendsOf store owner then .err ["Invalid Users"] store
  else
    let s1 := updateFriends store owner (fun fr => fr.erase user)
    match s1 user with
    | none => .crash s1
    | some r =>
      if owner ∈ r.friends then .ok (updateFriends s1 user (fun fr => fr.erase owner))
      else .crash s1

/-- Occurrence-count friendship symmetry of the store. -/
def Symm (store : Store) : Prop :=
  ∀ u v : String, (friendsOf store v).count u = (friendsOf store u).count v

/-! ## Session registry and routing (`server.py`, `wisp_server.py`) -/

/-- A `WispServer` session as the registry sees it: `user`/`target` are
`None` until set, `alive` is `Thread.is_alive()`, `msgq` the outbound
FIFO. -/
structure Session where
  user : Option String
  target : Option String
  state : State
  alive : Bool
  msgq : List WispMessage
deriving DecidableEq, Repr

/-- `Server._handle_conv` (`server.py`, lines 158-167): `none` models
the `KeyError` on `DATASTORE[owner]` (unreachable, owner authenticated);
the registry scan compares `conn.user == target` with no liveness
check. -/
def server_handle_conv (store : Store) (sessions : List Session)
    (owner target : String) : Option (Bool × List String) :=
  match store owner with
  | none => none
  | some r =>
    if target ∉ r.friends then some (false, ["Friend Unknown"])
    else if sessions.any (fun c => c.user = some target) then some (true, [])
    else some (false, ["User offline"])

/-- `WispServer._handle_conv` (`wisp_server.py`, lines 138-144) composed
with the server callback: on success record `target` and move to
`Conversation`; on failure the session is untouched and `run` wraps
`data` into an ERROR response. -/
def wisp_handle_conv (store : Store) (sessions : List Session) (s : Session)
    (target : String) : Option (Session × Bool × List String) :=
  match s.user with
  | none => none
  | some owner =>
    match server_handle_conv store sessions owner target with
    | none => none
    | some (outcome, data) =>
      if outcome then some ({ s with state := .Conversation, target := some target }, true, data)
      else some (s, false, data)

/-- Delivery test and enqueue for one registry entry:
`connection.user == receiver and connection.check_msg_state()` where
`check_msg_state` is `self._state == State.Conversation`. -/
def routeDeliver (receiver : String) (msg : WispMessage) (s : Session) : Session :=
  if s.user = some receiver ∧ s.state = State.Conversation then
    { s with msgq := s.msgq ++ [msg] } else s

/-- `Server._handle_message` (`server.py`, lines 169-182): one reverse
sweep over `self._sessions` that deletes every dead session and enqueues
`msg` on every matching live one; the reverse-index loop with in-place
deletion keeps survivors in their original relative order, so it is the
forward recursion below. -/
def handle_message (receiver : String) (msg : WispMessage) :
    List Session → List Session
  | [] => []
  | s :: rest =>
    if ¬ s.alive then handle_message receiver msg rest
    else routeDeliver receiver msg s :: handle_message receiver msg rest

/-! ## Discovery responder (`server.py`) -/

def WISP_ARP_REQ : List Byte := bytesOf "Is anyone there?"

def WISP_ARP_RES : List Byte := bytesOf "WISPRES:"

/-- One iteration of `Server.service_descovery` for a received datagram:
`udp.recv(len(WISP_ARP_REQ))` hands the code only the first 16 bytes of
the datagram's payload (a UDP read silently discards the excess), and a
reply `WISPRES:` + own address is broadcast when they equal the probe. -/
def service_descovery (addr : List Byte) (payload : List Byte) : Option (List Byte) :=
  if payload.take WISP_ARP_REQ.length = WISP_ARP_REQ then some (WISP_ARP_RES ++ addr)
  else none

set_option maxRecDepth 4096

/-! ## Codec lemmas -/

theorem parse_pkt_field_append_null (a rest : List Byte) :
    parse_pkt_field (a ++ 0 :: rest) = a.takeWhile (fun b => b != 0) := by
  induction a with
  | nil => simp [parse_pkt_field]
  | cons x xs ih =>
    by_cases h : x = 0 <;> simp [parse_pkt_field, List.takeWhile_cons, h, ih]

theorem packField_eq (a : List Byte) :
    packField a = a ++ 0 :: List.replicate (16 - (a.length + 1)) 32 := by
  simp [packField, ljust]

theorem parse_packField (a : List Byte) :
    parse_pkt_field (packField a) = a.takeWhile (fun b => b != 0) := by
  rw [packField_eq]; exact parse_pkt_field_append_null a _

theorem packField_length (a : List Byte) (h : a.length ≤ 15) :
    (packField a).length = 16 := by
  simp [packField, ljust]; omega

theorem unpack_pack (n : Nat) (h : n < 4294967296) : unpack_u32 (pack_u32 n) = n := by
  simp [unpack_u32, pack_u32, List.getD]; omega

theorem takeWhile_self_of_no_null (a : List Byte) (h : 0 ∉ a) :
    a.takeWhile (fun b => b != 0) = a := by
  induction a with
  | nil => rfl
  | cons x xs ih =>
    simp only [List.mem_cons, not_or] at h
    have hx : x ≠ 0 := fun hh => h.1 hh.symm
    simp [List.takeWhile_cons, bne_iff_ne, hx, ih h.2]

theorem code_length_four (cmd : List Byte) (h : cmd ∈ REQUEST_CODES) : cmd.length = 4 := by
  simp only [REQUEST_CODES, List.mem_cons, List.not_mem_nil, or_false] at h
  rcases h with rfl | rfl | rfl | rfl | rfl | rfl | rfl | rfl <;> decide

theorem parse_build_req (cmd a1 a2 : List Byte) (hc : cmd ∈ REQUEST_CODES)
    (h1 : a1.length ≤ 15) (h2 : a2.length ≤ 15) :
    parse_request (build_req cmd a1 a2) =
      some ⟨cmd, a1.takeWhile (fun b => b != 0), a2.takeWhile (fun b => b != 0)⟩ ∧
    (build_req cmd a1 a2).length = 36 := by
  have hl : cmd.length = 4 := code_length_four cmd hc
  have hp1 : (packField a1).length = 16 := packField_length a1 h1
  have hp2 : (packField a2).length = 16 := packField_length a2 h2
  have hassoc : build_req cmd a1 a2 = cmd ++ (packField a1 ++ packField a2) := by
    simp [build_req]
  have htake : (build_req cmd a1 a2).take 4 = cmd := by
    rw [hassoc]; exact List.take_left' hl
  have hdrop : (build_req cmd a1 a2).drop 4 = packField a1 ++ packField a2 := by
    rw [hassoc]; exact List.drop_left' hl
  have harg1 : ((build_req cmd a1 a2).drop 4).take 16 = packField a1 := by
    rw [hdrop]; exact List.take_left' hp1
  have harg2 : (build_req cmd a1 a2).drop 20 = packField a2 := by
    have h20 : (build_req cmd a1 a2).drop 20 = ((build_req cmd a1 a2).drop 4).drop 16 := by
      rw [List.drop_drop]
    rw [h20, hdrop]; exact List.drop_left' hp1
  have hv : WispRequest.valid cmd = true := by
    simp [WispRequest.valid]; exact hc
  constructor
  · simp only [parse_request, htake, hv, if_true, harg1, harg2, parse_packField]
  · simp only [hassoc, List.length_append, hl, hp1, hp2]

theorem chunksN_length (n : Nat) (l : List Byte) : (chunksN n l).length = n := by
  induction n generalizing l with
  | zero => rfl
  | succ m ih => simp [chunksN, ih]

theorem chunksN_flatten (args : List (List Byte)) (h : ∀ a ∈ args, a.length ≤ 15) :
    (chunksN args.length ((args.map packField).flatten)).map parse_pkt_field =
      args.map (List.takeWhile (fun b => b != 0)) := by
  induction args with
  | nil => rfl
  | cons a rest ih =>
    have ha : (packField a).length = 16 :=
      packField_length a (h a (List.mem_cons_self a rest))
    have hrest : ∀ b ∈ rest, b.length ≤ 15 := fun b hb => h b (List.mem_cons_of_mem a hb)
    simp only [List.length_cons, chunksN, List.map_cons, List.flatten_cons,
      List.take_left' ha, List.drop_left' ha, parse_packField, ih hrest]

theorem parse_build_res (code : List Byte) (args : List (List Byte))
    (hc : code = OK_CODE ∨ code = ER_CODE) (h15 : ∀ a ∈ args, a.length ≤ 15)
    (hn : args.length < 4294967296) :
    parse_response ((build_res code args.length args).take 6)
        (chunksN args.length ((build_res code args.length args).drop 6)) =
      some ⟨code, args.map (List.takeWhile (fun b => b != 0))⟩ := by
  have hcl : code.length = 2 := by rcases hc with rfl | rfl <;> decide
  have hassoc : build_res code args.length args =
      (code ++ pack_u32 args.length) ++ (args.map packField).flatten := by
    simp [build_res]
  have hhl : (code ++ pack_u32 args.length).length = 6 := by
    simp [pack_u32, hcl]
  have hheader : (build_res code args.length args).take 6 = code ++ pack_u32 args.length := by
    rw [hassoc]; exact List.take_left' hhl
  have hbody : (build_res code args.length args).drop 6 = (args.map packField).flatten := by
    rw [hassoc]; exact List.drop_left' hhl
  have htake2 : (code ++ pack_u32 args.length).take 2 = code := List.take_left' hcl
  have hdrop2 : (code ++ pack_u32 args.length).drop 2 = pack_u32 args.length :=
    List.drop_left' hcl
  have htake4 : (pack_u32 args.length).take 4 = pack_u32 args.length :=
    List.take_of_length_le (by simp [pack_u32])
  have hcode : (if code = OK_CODE then OK_CODE else ER_CODE) = code := by
    rcases hc with rfl | rfl
    · simp
    · rw [if_neg (by decide)]
  have hlt : ¬ ((code ++ pack_u32 args.length).length < 6) := by rw [hhl]; omega
  rw [hheader, hbody]
  simp only [parse_response]
  rw [if_neg hlt, htake2, hcode, hdrop2, htake4, unpack_pack _ hn,
    List.take_of_length_le (Nat.le_of_eq (chunksN_length _ _)), chunksN_flatten args h15]

theorem parse_build_msg (ts : Nat) (text : List Byte) (now : Nat)
    (hts0 : ts ≠ 0) (hts : ts < 4294967296) (hl : text.length ≤ 127) :
    parse_message now (build_msg ts text) = some ⟨ts, text.takeWhile (fun b => b != 0)⟩ ∧
    (build_msg ts text).length = 132 := by
  have hp : (pack_u32 ts).length = 4 := by simp [pack_u32]
  have hlen : (build_msg ts text).length = 132 := by
    simp [build_msg, ljust, pack_u32]; omega
  have htake : (build_msg ts text).take 4 = pack_u32 ts := List.take_left' hp
  have hdrop : (build_msg ts text).drop 4 = ljust (text ++ [0]) 128 := List.drop_left' hp
  have hfield : ljust (text ++ [0]) 128 =
      text ++ 0 :: List.replicate (128 - (text.length + 1)) 32 := by
    simp [ljust]
  refine ⟨?_, hlen⟩
  simp only [parse_message, hlen]
  rw [if_neg (by omega), htake, hdrop, hfield, parse_pkt_field_append_null,
    unpack_pack _ hts]
  simp [mkWispMessage, hts0]

/-- C2 (amended): decoding the encoding of a PDU yields the PDU back with
each field truncated at its first null, for request arguments of at most
15 characters (not 16: a 16-character argument overflows its field), for
response fields of at most 15 characters, and for message text of at
most 127 bytes with a nonzero timestamp (a zero timestamp is falsy in
`WispMessage.__init__` and is replaced by the decode-time clock); under
those limits request frames are exactly 36 bytes and message frames
exactly 132 bytes, and null-free fields come back unchanged. -/
theorem C2_codec_roundtrip :
    (∀ cmd a1 a2 : List Byte, cmd ∈ REQUEST_CODES → a1.length ≤ 15 → a2.length ≤ 15 →
      parse_request (build_req cmd a1 a2) =
        some ⟨cmd, a1.takeWhile (fun b => b != 0), a2.takeWhile (fun b => b != 0)⟩ ∧
      (build_req cmd a1 a2).length = 36) ∧
    (∀ code args, code = OK_CODE ∨ code = ER_CODE → (∀ a ∈ args, a.length ≤ 15) →
      args.length < 4294967296 →
      parse_response ((build_res code args.length args).take 6)
          (chunksN args.length ((build_res code args.length args).drop 6)) =
        some ⟨code, args.map (List.takeWhile (fun b => b != 0))⟩) ∧
    (∀ ts text now, ts ≠ 0 → ts < 4294967296 → text.length ≤ 127 →
      parse_message now (build_msg ts text) = some ⟨ts, text.takeWhile (fun b => b != 0)⟩ ∧
      (build_msg ts text).length = 132) ∧
    (∀ a : List Byte, 0 ∉ a → a.takeWhile (fun b => b != 0) = a) :=
  ⟨parse_build_req, parse_build_res, parse_build_msg, takeWhile_self_of_no_null⟩

/-- C2 witness: concrete round trips through the request and message
codecs. -/
theorem C2_codec_roundtrip_witness :
    parse_request (build_req (bytesOf "CONV") (bytesOf "andrei") []) =
      some ⟨bytesOf "CONV", bytesOf "andrei", []⟩ ∧
    parse_message 7 (build_msg 1528214400 (bytesOf "hello")) =
      some ⟨1528214400, bytesOf "hello"⟩ := by
  constructor
  · have h := (C2_codec_roundtrip.1 (bytesOf "CONV") (bytesOf "andrei") []
      (by decide) (by decide) (by decide)).1
    rw [h]; decide
  · have h := (C2_codec_roundtrip.2.2.1 1528214400 (bytesOf "hello") 7
      (by decide) (by decide) (by decide)).1
    rw [h]; decide

/-- C2 counterexample: with a 16-character first argument the request
frame is 37 bytes, not 36, and decoding the 36 bytes the server actually
reads does not give the request back; a zero-timestamp message also does
not round-trip, since the decoder substitutes the current clock. -/
theorem C2_counterexample :
    (build_req (bytesOf "VERS") (List.replicate 16 97) (bytesOf "b")).length ≠ 36 ∧
    parse_request ((build_req (bytesOf "VERS") (List.replicate 16 97) (bytesOf "b")).take 36) ≠
      some ⟨bytesOf "VERS", List.replicate 16 97, bytesOf "b"⟩ ∧
    parse_message 1528214400 (build_msg 0 (bytesOf "hi")) ≠ some ⟨0, bytesOf "hi"⟩ := by
  exact ⟨by decide, by decide, by decide⟩

/-! ## Phase gating (C1) -/

theorem C1_gating_aux (st : State) (legal : List (List Byte)) (cmd : List Byte)
    (hmap : STATE_MAP st = some legal)
    (hlegal : ∀ c ∈ legal, WispRequest.valid c = true ∧ c ∈ HANDLER_KEYS) :
    ((sessionStep st cmd = StepOutcome.dispatched cmd) ↔ cmd ∈ legal) ∧
    (WispRequest.valid cmd = false → sessionStep st cmd = StepOutcome.terminated) ∧
    (WispRequest.valid cmd = true → cmd ∉ legal →
      sessionStep st cmd = StepOutcome.ignored) := by
  by_cases hv : WispRequest.valid cmd = true
  · by_cases hm : cmd ∈ legal
    · have hh := hlegal cmd hm
      refine ⟨?_, ?_, ?_⟩
      · simp [sessionStep, hv, hmap, hm, hh.2]
      · intro hf; rw [hv] at hf; cases hf
      · intro _ hnm; exact absurd hm hnm
    · refine ⟨?_, ?_, ?_⟩
      · constructor
        · intro hdisp; simp [sessionStep, hv, hmap, hm] at hdisp
        · intro hmm; exact absurd hmm hm
      · intro hf; rw [hv] at hf; cases hf
      · intro _ _; simp [sessionStep, hv, hmap, hm]
  · have hv2 : WispRequest.valid cmd = false := by
      cases h : WispRequest.valid cmd
      · rfl
      · exact absurd h hv
    refine ⟨?_, ?_, ?_⟩
    · constructor
      · intro hdisp; simp [sessionStep, hv2] at hdisp
      · intro hmm; exact absurd (hlegal cmd hmm).1 hv
    · intro _; simp [sessionStep, hv2]
    · intro ht; exact absurd ht hv

/-- C1 (amended): in the run-loop request states (`Authentication` and
`Command`; `Listening` is consumed by the handshake before the loop and
`Conversation` never reaches the request branch), a request command is
accepted and dispatched if and only if it is in the current phase's
legal command set, and an unrecognized command code terminates the
session; but a recognized command outside the phase's legal set does NOT
terminate the session — `run` silently ignores it, with no handler call,
no response and no state change. -/
theorem C1_phase_gating (st : State) (cmd : List Byte)
    (hst : st = State.Authentication ∨ st = State.Command) :
    ∃ legal, STATE_MAP st = some legal ∧
      ((sessionStep st cmd = StepOutcome.dispatched cmd) ↔ cmd ∈ legal) ∧
      (WispRequest.valid cmd = false → sessionStep st cmd = StepOutcome.terminated) ∧
      (WispRequest.valid cmd = true → cmd ∉ legal →
        sessionStep st cmd = StepOutcome.ignored) := by
  rcases hst with rfl | rfl
  · exact ⟨_, rfl, C1_gating_aux _ _ cmd rfl (by decide)⟩
  · exact ⟨_, rfl, C1_gating_aux _ _ cmd rfl (by decide)⟩

/-- C1 counterexample: a `LIST` request received during the
`Authentication` phase is outside the phase's legal set, yet the session
ignores it and keeps running instead of terminating. -/
theorem C1_counterexample :
    bytesOf "LIST" ∉ (STATE_MAP State.Authentication).getD [] ∧
    sessionStep State.Authentication (bytesOf "LIST") = StepOutcome.ignored ∧
    sessionStep State.Authentication (bytesOf "LIST") ≠ StepOutcome.terminated := by
  exact ⟨by decide, by decide, by decide⟩

/-- C1 witness: `LIST` in `Command` phase is dispatched; an unrecognized
code terminates. -/
theorem C1_phase_gating_witness :
    sessionStep State.Command (bytesOf "LIST") =
      StepOutcome.dispatched (bytesOf "LIST") ∧
    sessionStep State.Command (bytesOf "XXXX") = StepOutcome.terminated := by
  constructor
  · obtain ⟨legal, hmap, hiff, -, -⟩ :=
      C1_phase_gating State.Command (bytesOf "LIST") (Or.inr rfl)
    apply hiff.mpr
    have hleg : legal = [bytesOf "ADDU", bytesOf "DELU", bytesOf "LIST",
        bytesOf "SRCH", bytesOf "CONV", bytesOf "QUIT"] := by
      have h2 : STATE_MAP State.Command = some [bytesOf "ADDU", bytesOf "DELU",
          bytesOf "LIST", bytesOf "SRCH", bytesOf "CONV", bytesOf "QUIT"] := rfl
      rw [h2] at hmap
      exact (Option.some_inj.mp hmap).symm
    rw [hleg]; decide
  · obtain ⟨legal, hmap, -, hterm, -⟩ :=
      C1_phase_gating State.Command (bytesOf "XXXX") (Or.inr rfl)
    exact hterm (by decide)

/-! ## Auth retry cutoff (C4) -/

/-- C4: starting from a fresh `Authentication` session, `n ≤ 5`
consecutive failed AUTH attempts leave the session open in
`Authentication` with `_auth_counter = n`, the 6th failure terminates
it, and in general a failure terminates the session exactly when the
counter (after its increment) exceeds 5. -/
theorem C4_auth_cutoff :
    (∀ n, n ≤ 5 → failedAuths n ⟨State.Authentication, none, 0⟩ =
        some ⟨State.Authentication, none, n⟩) ∧
    failedAuths 6 ⟨State.Authentication, none, 0⟩ = none ∧
    (∀ s data u, 5 ≤ s.auth_counter →
      handle_auth s false data u = AuthOutcome.terminated) ∧
    (∀ s data u, s.auth_counter < 5 →
      handle_auth s false data u =
        AuthOutcome.next { s with auth_counter := s.auth_counter + 1 } false data) := by
  refine ⟨?_, by decide, ?_, ?_⟩
  · intro n hn; interval_cases n <;> decide
  · intro s data u h
    unfold handle_auth
    rw [if_neg (by simp), if_pos (by omega)]
  · intro s data u h
    unfold handle_auth
    rw [if_neg (by simp), if_neg (by omega)]

/-- C4 witness: five failures leave the session usable, the sixth
terminates it. -/
theorem C4_auth_cutoff_witness :
    failedAuths 5 ⟨State.Authentication, none, 0⟩ =
      some ⟨State.Authentication, none, 5⟩ ∧
    handle_auth ⟨State.Authentication, none, 5⟩ false ["Invalid Cred"] "u" =
      AuthOutcome.terminated :=
  ⟨C4_auth_cutoff.1 5 (by decide), C4_auth_cutoff.2.2.1 _ ["Invalid Cred"] "u" (by decide)⟩

/-! ## Discovery responder (C6) -/

/-- C6 (amended): the responder replies (with `WISPRES:` + its address)
if and only if the FIRST 16 BYTES of the datagram's payload equal the
probe `Is anyone there?` — `udp.recv(16)` truncates the datagram, so any
payload extending the probe also triggers a reply; in particular the
exact probe replies and a payload whose 16-byte prefix differs does
not. -/
theorem C6_discovery (addr payload : List Byte) :
    (service_descovery addr payload = some (WISP_ARP_RES ++ addr) ↔
      payload.take 16 = WISP_ARP_REQ) ∧
    (payload.take 16 ≠ WISP_ARP_REQ → service_descovery addr payload = none) ∧
    (payload = WISP_ARP_REQ → service_descovery addr payload =
      some (WISP_ARP_RES ++ addr)) := by
  have hlen : WISP_ARP_REQ.length = 16 := by decide
  by_cases hc : payload.take 16 = WISP_ARP_REQ
  · refine ⟨by simp [service_descovery, hlen, hc], fun h => absurd hc h, ?_⟩
    intro _; simp [service_descovery, hlen, hc]
  · refine ⟨?_, ?_, ?_⟩
    · constructor
      · intro h; simp [service_descovery, hlen, hc] at h
      · intro h; exact absurd h hc
    · intro _; simp [service_descovery, hlen, hc]
    · intro hp; subst hp; exact absurd (by decide) hc

/-- C6 counterexample: a 17-byte datagram that strictly extends the
probe is not equal to the probe bytes, yet it produces a broadcast
reply. -/
theorem C6_counterexample :
    WISP_ARP_REQ ++ [33] ≠ WISP_ARP_REQ ∧
    service_descovery (bytesOf "10.0.0.7") (WISP_ARP_REQ ++ [33]) =
      some (WISP_ARP_RES ++ bytesOf "10.0.0.7") := by
  exact ⟨by decide, by decide⟩

/-- C6 witness: the exact probe gets a reply, an unrelated payload gets
none. -/
theorem C6_discovery_witness :
    service_descovery (bytesOf "10.0.0.7") WISP_ARP_REQ =
      some (WISP_ARP_RES ++ bytesOf "10.0.0.7") ∧
    service_descovery (bytesOf "10.0.0.7") (bytesOf "hello there") = none :=
  ⟨(C6_discovery _ _).2.2 rfl, (C6_discovery _ _).2.1 (by decide)⟩

/-! ## Short reads (C7) -/

/-- C7 (amended): a short read is fatal for request frames on the server
(`_recv` closes on any length other than the expected one), for message
frames on both sides (`parse_message` fails below 132 bytes and its
callers exit), and for the 6-byte response header on the client; but the
client reads each 16-byte response data field with NO length check, so a
short field read inside a response body is consumed silently instead of
being a fatal framing error. -/
theorem C7_framing :
    (∀ size got, got.length < size → wisp_recv size got = none) ∧
    (∀ now msg, msg.length < 132 → parse_message now msg = none) ∧
    (∀ header fields, header.length < 6 → parse_response header fields = none) ∧
    parse_response (OK_CODE ++ pack_u32 1) [[104, 105]] =
      some ⟨OK_CODE, [[104, 105]]⟩ := by
  refine ⟨?_, ?_, ?_, by decide⟩
  · intro size got h; unfold wisp_recv; rw [if_pos (by omega)]
  · intro now msg h; unfold parse_message; rw [if_pos h]
  · intro header fields h; unfold parse_response; rw [if_pos h]

/-- C7 counterexample: a response frame announcing one field has
specified length 22 bytes; the client receives only 8 (6-byte header
plus a 2-byte truncated field) yet decodes a response instead of
treating the short read as fatal. -/
theorem C7_counterexample :
    (OK_CODE ++ pack_u32 1).length + ([104, 105] : List Byte).length < 6 + 16 * 1 ∧
    parse_response (OK_CODE ++ pack_u32 1) [[104, 105]] ≠ none := by
  exact ⟨by decide, by decide⟩

/-- C7 witness: concrete short reads on the three fatal paths. -/
theorem C7_framing_witness :
    wisp_recv 36 (bytesOf "short") = none ∧
    parse_message 0 (bytesOf "tiny") = none ∧
    parse_response (bytesOf "OK") [] = none :=
  ⟨C7_framing.1 36 (bytesOf "short") (by decide),
   C7_framing.2.1 0 (bytesOf "tiny") (by decide),
   C7_framing.2.2.1 (bytesOf "OK") [] (by decide)⟩

/-- C3: for an authenticated `Command`-phase session, `CONV(target)`
succeeds if and only if `target` is in the caller's friend list AND some
registered session has `user == target`; on success the session records
the target and moves to `Conversation`, otherwise the session is
unchanged (phase stays `Command`) and the handler returns the ERROR
reason `Friend Unknown` or `User offline`. -/
theorem C3_conv (store : Store) (sessions : List Session) (s : Session)
    (target owner : String) (hu : s.user = some owner)
    (ho : (store owner).isSome) (_hst : s.state = State.Command) :
    ∃ s2 outcome data,
      wisp_handle_conv store sessions s target = some (s2, outcome, data) ∧
      (outcome = true ↔ target ∈ friendsOf store owner ∧
        ∃ c ∈ sessions, c.user = some target) ∧
      (outcome = true → s2.state = State.Conversation ∧ s2.target = some target) ∧
      (outcome = false → s2 = s ∧
        (data = ["Friend Unknown"] ∨ data = ["User offline"])) := by
  obtain ⟨r, hr⟩ := Option.isSome_iff_exists.mp ho
  have hfr : friendsOf store owner = r.friends := by simp [friendsOf, hr]
  simp only [wisp_handle_conv, server_handle_conv, hu, hr]
  by_cases hf : target ∈ r.friends
  · by_cases hl : sessions.any (fun c => c.user = some target)
    · refine ⟨Session.mk (some owner) (some target) State.Conversation s.alive s.msgq,
        true, [], ?_, ?_, ?_, ?_⟩
      · simp [hf, hl]
      · simp only [true_iff]
        exact ⟨hfr ▸ hf, by simpa [List.any_eq_true, decide_eq_true_eq] using hl⟩
      · intro _; exact ⟨rfl, rfl⟩
      · intro h; cases h
    · have hl2 : sessions.any (fun c => c.user = some target) = false := by
        cases h : sessions.any (fun c => c.user = some target)
        · rfl
        · exact absurd h hl
      refine ⟨s, false, ["User offline"], ?_, ?_, ?_, ?_⟩
      · simp [hf, hl2]
      · constructor
        · intro h; cases h
        · intro hx
          exact absurd (by simpa [List.any_eq_true, decide_eq_true_eq] using hx.2) hl
      · intro h; cases h
      · intro _; exact ⟨rfl, Or.inr rfl⟩
  · refine ⟨s, false, ["Friend Unknown"], ?_, ?_, ?_, ?_⟩
    · simp [hf]
    · constructor
      · intro h; cases h
      · intro hx; exact absurd (hfr ▸ hx.1) hf
    · intro h; cases h
    · intro _; exact ⟨rfl, Or.inl rfl⟩

/-- Two-user store for concrete instantiations. -/
def demoStore : Store := fun x =>
  if x = "andrei" then some ⟨"dorin", ["safa"]⟩
  else if x = "safa" then some ⟨"aman", ["andrei"]⟩
  else none

/-- C3 witness: `CONV("safa")` from `andrei` with `safa` online
succeeds and moves the session to `Conversation`. -/
theorem C3_conv_witness :
    ∃ s2 outcome data,
      wisp_handle_conv demoStore [Session.mk (some "safa") none State.Conversation true []]
        (Session.mk (some "andrei") none State.Command true []) "safa" =
          some (s2, outcome, data) ∧
      outcome = true ∧ s2.state = State.Conversation ∧ s2.target = some "safa" := by
  obtain ⟨s2, outcome, data, heq, hiff, hsucc, -⟩ :=
    C3_conv demoStore [Session.mk (some "safa") none State.Conversation true []]
      (Session.mk (some "andrei") none State.Command true []) "safa" "andrei"
      rfl (by decide) rfl
  have hout : outcome = true := by
    apply hiff.mpr
    refine ⟨by decide, ⟨Session.mk (some "safa") none State.Conversation true [], by simp, rfl⟩⟩
  exact ⟨s2, outcome, data, heq, hout, (hsucc hout).1, (hsucc hout).2⟩

theorem handle_message_filter_map (receiver : String) (msg : WispMessage)
    (sessions : List Session) :
    handle_message receiver msg sessions =
      (sessions.filter (fun s => s.alive)).map (routeDeliver receiver msg) := by
  induction sessions with
  | nil => rfl
  | cons s rest ih =>
    by_cases ha : s.alive
    · simp [handle_message, List.filter_cons, ha, ih]
    · simp [handle_message, List.filter_cons, ha, ih]

theorem routeDeliver_state (receiver : String) (msg : WispMessage) (s : Session) :
    (routeDeliver receiver msg s).state = s.state := by
  unfold routeDeliver
  split <;> rfl

theorem routeDeliver_alive (receiver : String) (msg : WispMessage) (s : Session) :
    (routeDeliver receiver msg s).alive = s.alive := by
  unfold routeDeliver
  split <;> rfl

/-- C10: one routing pass equals deleting every dead session and
applying the delivery test to every survivor — so every live session
whose `user` equals the receiver and whose phase is `Conversation` gets
its own copy of the message appended to its queue (not just a single
target), and the resulting registry contains only live sessions. -/
theorem C10_routing_broadcast (receiver : String) (msg : WispMessage)
    (sessions : List Session) :
    handle_message receiver msg sessions =
      (sessions.filter (fun s => s.alive)).map (routeDeliver receiver msg) ∧
    (∀ s ∈ sessions, s.alive = true → s.user = some receiver →
      s.state = State.Conversation →
      { s with msgq := s.msgq ++ [msg] } ∈ handle_message receiver msg sessions) ∧
    (∀ s2 ∈ handle_message receiver msg sessions, s2.alive = true) := by
  refine ⟨handle_message_filter_map receiver msg sessions, ?_, ?_⟩
  · intro s hs ha hu hst
    rw [handle_message_filter_map]
    have hmem : s ∈ sessions.filter (fun s => s.alive) :=
      List.mem_filter.mpr ⟨hs, by simp [ha]⟩
    have hdel : routeDeliver receiver msg s = { s with msgq := s.msgq ++ [msg] } := by
      unfold routeDeliver
      rw [if_pos ⟨hu, hst⟩]
    exact hdel ▸ List.mem_map_of_mem (routeDeliver receiver msg) hmem
  · intro s2 hs2
    rw [handle_message_filter_map] at hs2
    obtain ⟨s, hsf, rfl⟩ := List.mem_map.mp hs2
    rw [routeDeliver_alive]
    exact (List.mem_filter.mp hsf).2

/-- C10 witness: two live `Conversation` sessions of the same user both
receive a copy (membership shown for the mapped entry), with a dead
session in between. -/
theorem C10_routing_broadcast_witness :
    Session.mk (some "safa") none State.Conversation true [WispMessage.mk 9 (bytesOf "hi")] ∈
      handle_message "safa" (WispMessage.mk 9 (bytesOf "hi"))
        [Session.mk (some "safa") none State.Conversation true [],
         Session.mk (some "andrei") none State.Command false [],
         Session.mk (some "safa") none State.Conversation true []] :=
  (C10_routing_broadcast "safa" (WispMessage.mk 9 (bytesOf "hi")) _).2.1
    (Session.mk (some "safa") none State.Conversation true []) (by simp) rfl rfl rfl

/-- C5: a routed message lands on a session's queue only if that
session's phase is `Conversation`: every non-`Conversation` session in
the routing result is one of the original sessions, untouched (its queue
unchanged — the message is silently dropped, nothing is buffered and no
error is surfaced, `_handle_message` returning nothing). -/
theorem C5_route_only_conversation (receiver : String) (msg : WispMessage)
    (sessions : List Session) :
    (∀ s2 ∈ handle_message receiver msg sessions,
      s2.state ≠ State.Conversation → s2 ∈ sessions) ∧
    (∀ s ∈ sessions, s.alive = true → s.state ≠ State.Conversation →
      s ∈ handle_message receiver msg sessions) := by
  constructor
  · intro s2 hs2 hst
    rw [handle_message_filter_map] at hs2
    obtain ⟨s, hsf, rfl⟩ := List.mem_map.mp hs2
    have hss : routeDeliver receiver msg s = s := by
      unfold routeDeliver
      rw [if_neg]
      intro hand
      exact hst (by rw [routeDeliver_state]; exact hand.2)
    rw [hss]
    exact (List.mem_filter.mp hsf).1
  · intro s hs ha hst
    rw [handle_message_filter_map]
    have hmem : s ∈ sessions.filter (fun s => s.alive) :=
      List.mem_filter.mpr ⟨hs, by simp [ha]⟩
    have hss : routeDeliver receiver msg s = s := by
      unfold routeDeliver
      rw [if_neg]
      intro hand
      exact hst hand.2
    exact hss ▸ List.mem_map_of_mem (routeDeliver receiver msg) hmem

/-- C5 witness: a live `Command`-phase session addressed by a message
passes through routing completely unchanged. -/
theorem C5_route_only_conversation_witness :
    Session.mk (some "safa") none State.Command true [] ∈
      handle_message "safa" (WispMessage.mk 9 (bytesOf "hi"))
        [Session.mk (some "safa") none State.Command true []] :=
  (C5_route_only_conversation "safa" (WispMessage.mk 9 (bytesOf "hi")) _).2
    (Session.mk (some "safa") none State.Command true []) (by simp) rfl (by decide)

theorem friendsOf_update_of_keep_nil (store : Store) (name : String)
    (f : List String → List String) (hf : f [] = []) (x : String) :
    friendsOf (updateFriends store name f) x =
      if x = name then f (friendsOf store name) else friendsOf store x := by
  unfold friendsOf updateFriends
  by_cases hx : x = name
  · subst hx
    cases hs : store x <;> simp [hs, hf]
  · simp [hx]

theorem friendsOf_update_of_isSome (store : Store) (name : String)
    (f : List String → List String) (h : (store name).isSome) (x : String) :
    friendsOf (updateFriends store name f) x =
      if x = name then f (friendsOf store name) else friendsOf store x := by
  unfold friendsOf updateFriends
  by_cases hx : x = name
  · subst hx
    obtain ⟨r, hr⟩ := Option.isSome_iff_exists.mp h
    simp [hr]
  · simp [hx]

theorem updateFriends_isSome (store : Store) (name x : String)
    (f : List String → List String) :
    ((updateFriends store name f) x).isSome = (store x).isSome := by
  unfold updateFriends
  by_cases hx : x = name
  · subst hx; cases store x <;> simp
  · simp [hx]

theorem friendsOf_add (store : Store) (owner user : String)
    (ho : (store owner).isSome) (hu : (store user).isSome) (v : String) :
    friendsOf (handle_add store owner user).2.2 v =
      (friendsOf store v ++ if v = owner then [user] else []) ++
        (if v = user then [owner] else []) := by
  have hguard : ¬ ((store owner).isNone ∨ (store user).isNone) := by
    simp only [not_or, Bool.not_eq_true, Option.isNone_eq_false_iff]
    exact ⟨ho, hu⟩
  have hs1 : ((updateFriends store owner (fun fr => fr ++ [user])) user).isSome := by
    rw [updateFriends_isSome]; exact hu
  unfold handle_add
  rw [if_neg hguard]
  rw [friendsOf_update_of_isSome _ _ _ hs1 v]
  by_cases hvu : v = user
  · subst hvu
    rw [if_pos rfl, if_pos rfl,
      friendsOf_update_of_isSome _ _ _ ho v]
    by_cases hvo : v = owner
    · rw [if_pos hvo, if_pos hvo, hvo]
    · rw [if_neg hvo, if_neg hvo, List.append_nil]
  · rw [if_neg hvu, if_neg hvu, List.append_nil,
      friendsOf_update_of_isSome _ _ _ ho v]
    by_cases hvo : v = owner
    · rw [if_pos hvo, if_pos hvo, hvo]
    · rw [if_neg hvo, if_neg hvo, List.append_nil]

theorem handle_add_isSome (store : Store) (owner user x : String) :
    (((handle_add store owner user).2.2) x).isSome = (store x).isSome := by
  unfold handle_add
  by_cases hguard : (store owner).isNone ∨ (store user).isNone
  · rw [if_pos hguard]
  · rw [if_neg hguard]
    simp only [updateFriends_isSome]

theorem symm_add (store : Store) (owner user : String) (h : Symm store) :
    Symm (handle_add store owner user).2.2 := by
  by_cases ho : (store owner).isSome
  · by_cases hu : (store user).isSome
    · intro u v
      rw [friendsOf_add store owner user ho hu, friendsOf_add store owner user ho hu]
      simp only [List.count_append]
      have huv := h u v
      clear h
      by_cases h1 : v = owner <;> by_cases h2 : v = user <;>
        by_cases h3 : u = owner <;> by_cases h4 : u = user <;>
        simp_all [List.count_cons, List.count_nil]
    · have hg : (store owner).isNone ∨ (store user).isNone := by
        right
        cases hsu : store user
        · rfl
        · rw [hsu] at hu; exact absurd rfl hu
      unfold handle_add
      rw [if_pos hg]
      exact h
  · have hg : (store owner).isNone ∨ (store user).isNone := by
      left
      cases hso : store owner
      · rfl
      · rw [hso] at ho; exact absurd rfl ho
    unfold handle_add
    rw [if_pos hg]
    exact h

theorem symm_erase_diag (store : Store) (w : String) (h : Symm store) :
    Symm (updateFriends store w (fun fr => fr.erase w)) := by
  intro u v
  rw [friendsOf_update_of_keep_nil store w _ (List.erase_nil w) v,
    friendsOf_update_of_keep_nil store w _ (List.erase_nil w) u]
  have huv := h u v
  clear h
  by_cases hv : v = w <;> by_cases hu : u = w <;>
    simp_all [List.count_erase]

theorem symm_del_distinct (store : Store) (owner user : String) (hne : owner ≠ user)
    (h : Symm store) :
    Symm (updateFriends (updateFriends store owner (fun fr => fr.erase user)) user
      (fun fr => fr.erase owner)) := by
  intro u v
  have hfr : ∀ x, friendsOf (updateFriends (updateFriends store owner
      (fun fr => fr.erase user)) user (fun fr => fr.erase owner)) x =
      if x = user then (friendsOf store user).erase owner
      else if x = owner then (friendsOf store owner).erase user
      else friendsOf store x := by
    intro x
    rw [friendsOf_update_of_keep_nil _ _ _ (List.erase_nil owner) x]
    by_cases hx : x = user
    · rw [if_pos hx, if_pos hx,
        friendsOf_update_of_keep_nil _ _ _ (List.erase_nil user) user,
        if_neg (fun e => hne e.symm)]
    · rw [if_neg hx, if_neg hx]
      exact friendsOf_update_of_keep_nil _ _ _ (List.erase_nil user) x
  rw [hfr u, hfr v]
  have huv := h u v
  clear h hfr
  by_cases h1 : v = user <;> by_cases h2 : v = owner <;>
    by_cases h3 : u = user <;> by_cases h4 : u = owner <;>
    simp_all [List.count_erase]

theorem symm_del (store : Store) (owner user : String) (h : Symm store) :
    Symm (handle_del store owner user).store := by
  by_cases hguard : (store owner).isNone ∨ user ∉ friendsOf store owner
  · unfold handle_del
    rw [if_pos hguard]
    exact h
  · push_neg at hguard
    obtain ⟨honn, humem⟩ := hguard
    have hcnt : 0 < (friendsOf store owner).count user := List.count_pos_iff.mpr humem
    have hcnt2 : 0 < (friendsOf store user).count owner := by
      rw [h owner user]; exact hcnt
    have humem2 : owner ∈ friendsOf store user := List.count_pos_iff.mp hcnt2
    have hfne : friendsOf store user ≠ [] := by
      intro he; rw [he] at humem2; cases humem2
    have hu : ∃ ru, store user = some ru := by
      cases hsu : store user with
      | none => exact absurd (by simp [friendsOf, hsu]) hfne
      | some ru => exact ⟨ru, rfl⟩
    obtain ⟨ru, hru⟩ := hu
    have hguard2 : ¬ ((store owner).isNone = true ∨ user ∉ friendsOf store owner) := by
      intro hg
      rcases hg with hg | hg
      · exact honn hg
      · exact hg humem
    by_cases hne : owner = user
    · subst hne
      have hs1u : updateFriends store owner (fun fr => fr.erase owner) owner =
          some ⟨ru.password, ru.friends.erase owner⟩ := by
        unfold updateFriends
        rw [if_pos rfl, hru]
        rfl
      unfold handle_del
      rw [if_neg hguard2]
      simp only [hs1u]
      by_cases hmem : owner ∈ ru.friends.erase owner
      · rw [if_pos hmem]
        exact symm_erase_diag _ owner (symm_erase_diag _ owner h)
      · rw [if_neg hmem]
        exact symm_erase_diag _ owner h
    · have hs1u : updateFriends store owner (fun fr => fr.erase user) user = store user := by
        unfold updateFriends
        rw [if_neg (fun e => hne e.symm)]
      have hmem : owner ∈ ru.friends := by
        have : friendsOf store user = ru.friends := by simp [friendsOf, hru]
        rw [← this]; exact humem2
      unfold handle_del
      rw [if_neg hguard2]
      simp only [hs1u, hru]
      rw [if_pos hmem]
      exact symm_del_distinct store owner user hne h

/-- C8: starting from any store in which, for every pair of users, the
occurrence count of each in the other's friends list is equal, both
`_handle_add` and `_handle_del` preserve that symmetry — on success, on
failure, and even on `_handle_del`'s uncaught-exception path (where the
first `remove` has already mutated the store). -/
theorem C8_symmetry_invariant (store : Store) (owner user : String) (h : Symm store) :
    Symm (handle_add store owner user).2.2 ∧ Symm (handle_del store owner user).store :=
  ⟨symm_add store owner user h, symm_del store owner user h⟩

/-- One-user store with an empty friends list. -/
def soloStore : Store := fun x => if x = "a" then some ⟨"p", []⟩ else none

theorem soloStore_symm : Symm soloStore := by
  intro u v
  have hfr : ∀ w, friendsOf soloStore w = [] := by
    intro w
    unfold friendsOf soloStore
    by_cases hw : w = "a" <;> simp [hw]
  rw [hfr u, hfr v]
  simp

/-- C8 witness: a symmetric one-user store stays symmetric through a
self-ADD and a failing DEL. -/
theorem C8_symmetry_invariant_witness :
    Symm (handle_add soloStore "a" "a").2.2 ∧ Symm (handle_del soloStore "a" "a").store :=
  C8_symmetry_invariant soloStore "a" "a" soloStore_symm

/-- C9: `_handle_add` succeeds exactly when both identities exist in the
store, with no friendship check: repeating ADD for the same distinct
pair appends a second copy of each identity to the other's list, and
ADD(owner, owner) succeeds and appends owner to its own list twice. -/
theorem C9_add_unconditional :
    (∀ store owner user, ((handle_add store owner user).1 = true ↔
        (store owner).isSome ∧ (store user).isSome)) ∧
    (∀ store owner user, (store owner).isSome → (store user).isSome → owner ≠ user →
      friendsOf (handle_add (handle_add store owner user).2.2 owner user).2.2 owner =
        friendsOf store owner ++ [user, user] ∧
      friendsOf (handle_add (handle_add store owner user).2.2 owner user).2.2 user =
        friendsOf store user ++ [owner, owner]) ∧
    (∀ store owner, (store owner).isSome →
      (handle_add store owner owner).1 = true ∧
      friendsOf (handle_add store owner owner).2.2 owner =
        friendsOf store owner ++ [owner, owner]) := by
  refine ⟨?_, ?_, ?_⟩
  · intro store owner user
    cases ho : store owner <;> cases hu : store user <;> simp [handle_add, ho, hu]
  · intro store owner user ho hu hne
    have ho2 : ((handle_add store owner user).2.2 owner).isSome := by
      rw [handle_add_isSome]; exact ho
    have hu2 : ((handle_add store owner user).2.2 user).isSome := by
      rw [handle_add_isSome]; exact hu
    constructor
    · rw [friendsOf_add _ _ _ ho2 hu2 owner, friendsOf_add _ _ _ ho hu owner,
        if_pos rfl, if_neg (fun e => hne e)]
      simp
    · rw [friendsOf_add _ _ _ ho2 hu2 user, friendsOf_add _ _ _ ho hu user,
        if_pos rfl, if_neg (fun e => hne e.symm)]
      simp
  · intro store owner ho
    have hiff : (handle_add store owner owner).1 = true ↔
        (store owner).isSome ∧ (store owner).isSome := by
      cases hso : store owner <;> simp [handle_add, hso]
    refine ⟨hiff.mpr ⟨ho, ho⟩, ?_⟩
    rw [friendsOf_add _ _ _ ho ho owner, if_pos rfl]
    simp

/-- C9 witness: a self-ADD duplicates the owner in its own list, and
repeating an ADD for an already-friendly pair piles up duplicates. -/
theorem C9_add_unconditional_witness :
    (handle_add soloStore "a" "a").1 = true ∧
    friendsOf (handle_add soloStore "a" "a").2.2 "a" = ["a", "a"] ∧
    friendsOf (handle_add (handle_add demoStore "andrei" "safa").2.2 "andrei" "safa").2.2
      "andrei" = ["safa", "safa", "safa"] := by
  have h3 := C9_add_unconditional.2.2 soloStore "a" (by decide)
  have h2 := C9_add_unconditional.2.1 demoStore "andrei" "safa" (by decide) (by decide)
    (by decide)
  refine ⟨h3.1, ?_, ?_⟩
  · rw [h3.2]; decide
  · rw [h2.1]; decide
